import Mathlib

/-!
# Verification of the bluchat mesh-messaging core

This file gives a shallow embedding, in Lean 4, of the parts of the
bluchat repository that the verified properties talk about:

* `MessageProtocol` (src/utils/message-protocol.ts): binary framing,
  size-gated compression, fragmentation, decoding;
* `BluetoothService.relayMessage` (src/services/bluetooth-service.ts):
  dedup set, TTL handling, re-broadcast;
* `CryptoService` (src/services/crypto-service.ts): channel key
  derivation and channel encryption/decryption;
* `ChannelService` (channel-service.ts): channel lifecycle states;
* `ScanningOptimizer` (scanning-optimizer.ts): the ordered strategy
  chain;
* `MeshCoordinator` (src/services/mesh-coordinator.ts): node table
  registration and sync merging;
* the service worker's `detectNetworkPartitions` (mesh worker).

Modelling conventions, used throughout:

* JavaScript strings are modelled as `List Nat` of their code units
  (written `Bytes`); the ASCII fragments manipulated by the code make
  `TextEncoder`/`TextDecoder` the identity under this view.
* Wall-clock reads (`Date.now()`, `new Date().getHours()`) are passed
  as explicit parameters.
* External libraries (`lz4js`, `tweetnacl`, `scrypt-js`) are modelled
  by executable Lean functions that satisfy exactly the contracts the
  code relies on; each model carries a doc comment saying what is
  modelled.  Randomness (nonces) is passed in as a parameter.
-/

namespace Bluchat

/-- Byte/code-unit strings: the model of JS strings and `Uint8Array`s. -/
abbrev Bytes := List Nat

/-- ASCII literal helper: the code points of a Lean string literal. -/
def lit (s : String) : Bytes := s.data.map Char.toNat

/-! ## JSON serialization model

`MessageProtocol.encodePayload` is `TextEncoder.encode(JSON.stringify(data))`
for the fixed record `{id, timestamp, channel, text, encrypted, signature}`,
and `decodePayload` is `JSON.parse(TextDecoder.decode(data))`.  We model
`JSON.stringify` concretely (object keys in insertion order, `undefined`
fields omitted, strings escaped) and `JSON.parse` as a byte-level parser
for the grammar `stringify` emits. -/

/-- Hex digit used by the `\u00XX` string escape (lower case, as JSON). -/
def hexDig (d : Nat) : Nat := if d < 10 then 48 + d else 87 + d

/-- Value of a hex digit code point. -/
def hexVal (c : Nat) : Nat := if c ≤ 57 then c - 48 else c - 87

/-- JSON escaping of one code point: `\"` and `\\` for quote and
backslash, `\u00XX` for control characters, everything else raw. -/
def escapeChar (c : Nat) : Bytes :=
  if c = 34 ∨ c = 92 then [92, c]
  else if c < 32 then [92, 117, 48, 48, hexDig (c / 16), hexDig (c % 16)]
  else [c]

/-- JSON string serialization: quote, escaped body, quote. -/
def printStr (s : Bytes) : Bytes := 34 :: (s.flatMap escapeChar) ++ [34]

/-- Fuelled digit printer (structural recursion, so that it evaluates
inside the kernel; the fuel is always sufficient where it is used). -/
def natDigitsAux (fuel n : Nat) : Bytes :=
  match fuel with
  | 0 => []
  | fuel + 1 => if n < 10 then [48 + n] else natDigitsAux fuel (n / 10) ++ [48 + n % 10]

/-- Decimal digits of a natural number (model of JSON number printing). -/
def natDigits (n : Nat) : Bytes := natDigitsAux (n + 1) n

/-- Scanner for the body of a JSON string: consumes up to the closing
quote, undoing the escapes `printStr` emits. -/
def scanStr : Bytes → Bytes → Option (Bytes × Bytes)
  | _, [] => none
  | acc, c :: r =>
    if c = 34 then some (acc.reverse, r)
    else if c = 92 then
      match r with
      | [] => none
      | e :: r1 =>
        if e = 117 then
          match r1 with
          | a :: b :: c2 :: d :: r2 =>
            scanStr ((hexVal a * 4096 + hexVal b * 256 + hexVal c2 * 16 + hexVal d) :: acc) r2
          | _ => none
        else scanStr (e :: acc) r1
    else scanStr (c :: acc) r

/-- Parse a JSON string (expects a leading quote). -/
def parseStr : Bytes → Option (Bytes × Bytes)
  | 34 :: r => scanStr [] r
  | _ => none

/-- Decimal digit predicate. -/
def isDigitB (c : Nat) : Bool := 48 ≤ c ∧ c ≤ 57

/-- Parse a JSON number (a non-empty digit run). -/
def parseNum (l : Bytes) : Option (Nat × Bytes) :=
  let ds := l.takeWhile isDigitB
  if ds.isEmpty then none
  else some (ds.foldl (fun a c => a * 10 + (c - 48)) 0, l.drop ds.length)

/-- Consume an expected literal byte sequence. -/
def expectLit (pat l : Bytes) : Option Bytes :=
  if l.take pat.length = pat then some (l.drop pat.length) else none

/-- Model of the `EncryptedData` record (src/types): base64 strings as
byte strings. -/
structure EncryptedDataG where
  nonce : Bytes
  ciphertext : Bytes
  ephemeralPublicKey : Option Bytes
deriving DecidableEq, Repr

/-- Model of the `Message` record (src/types), restricted to the fields
the mesh core reads (`isMine`, `status` and `recipient` are UI-side and
never serialized by the wire codec). -/
structure MessageG where
  id : Bytes
  text : Option Bytes
  encrypted : Option EncryptedDataG
  timestamp : Nat
  channel : Bytes
  sender : Bytes
  ttl : Nat
  signature : Option Bytes
deriving DecidableEq, Repr

/-- The record serialized by `MessageProtocol.encodePayload`. -/
structure PayloadFields where
  id : Bytes
  timestamp : Nat
  channel : Bytes
  text : Option Bytes
  encrypted : Option EncryptedDataG
  signature : Option Bytes
deriving DecidableEq, Repr

/-- JSON form of an `EncryptedData` value.  Key order follows the object
literals in `crypto-service.ts`: `ephemeralPublicKey` (peer encryption)
first when present, then `nonce`, then `ciphertext`. -/
def printEnc (e : EncryptedDataG) : Bytes :=
  [123] ++
    (match e.ephemeralPublicKey with
     | some k => lit "\"ephemeralPublicKey\":" ++ printStr k ++ lit ",\"nonce\":"
     | none => lit "\"nonce\":") ++
    printStr e.nonce ++ lit ",\"ciphertext\":" ++ printStr e.ciphertext ++ [125]

/-- JSON form of the payload record, keys in the insertion order of
`encodePayload`'s object literal; `undefined` fields are omitted, as
`JSON.stringify` does. -/
def printPayload (f : PayloadFields) : Bytes :=
  [123] ++ lit "\"id\":" ++ printStr f.id ++
    lit ",\"timestamp\":" ++ natDigits f.timestamp ++
    lit ",\"channel\":" ++ printStr f.channel ++
    (match f.text with
     | some t => lit ",\"text\":" ++ printStr t
     | none => []) ++
    (match f.encrypted with
     | some e => lit ",\"encrypted\":" ++ printEnc e
     | none => []) ++
    (match f.signature with
     | some s => lit ",\"signature\":" ++ printStr s
     | none => []) ++ [125]

/-- Parse the JSON form of an `EncryptedData` value. -/
def parseEnc (l : Bytes) : Option (EncryptedDataG × Bytes) := do
  let l ← expectLit [123] l
  let (eph, l) ←
    match expectLit (lit "\"ephemeralPublicKey\":") l with
    | some l1 => do
        let (k, l2) ← parseStr l1
        let l3 ← expectLit (lit ",\"nonce\":") l2
        pure (some k, l3)
    | none => do
        let l1 ← expectLit (lit "\"nonce\":") l
        pure ((none : Option Bytes), l1)
  let (n, l) ← parseStr l
  let l ← expectLit (lit ",\"ciphertext\":") l
  let (c, l) ← parseStr l
  let l ← expectLit [125] l
  pure (⟨n, c, eph⟩, l)

/-- Parse the JSON payload record (model of `JSON.parse` on the grammar
`encodePayload` produces; the whole input must be consumed). -/
def parsePayload (l : Bytes) : Option PayloadFields := do
  let l ← expectLit [123] l
  let l ← expectLit (lit "\"id\":") l
  let (i, l) ← parseStr l
  let l ← expectLit (lit ",\"timestamp\":") l
  let (ts, l) ← parseNum l
  let l ← expectLit (lit ",\"channel\":") l
  let (ch, l) ← parseStr l
  let (tx, l) ←
    match expectLit (lit ",\"text\":") l with
    | some l1 => do
        let (t, l2) ← parseStr l1
        pure (some t, l2)
    | none => pure ((none : Option Bytes), l)
  let (en, l) ←
    match expectLit (lit ",\"encrypted\":") l with
    | some l1 => do
        let (e, l2) ← parseEnc l1
        pure (some e, l2)
    | none => pure ((none : Option EncryptedDataG), l)
  let (sg, l) ←
    match expectLit (lit ",\"signature\":") l with
    | some l1 => do
        let (s, l2) ← parseStr l1
        pure (some s, l2)
    | none => pure ((none : Option Bytes), l)
  let l ← expectLit [125] l
  if l.isEmpty then pure ⟨i, ts, ch, tx, en, sg⟩ else none

/-! ## lz4 model

The code uses `lz4js`: `compress` (only called on payloads of at least
64 bytes, and its output only kept when strictly smaller) and
`decompress` (which throws on input that is not an lz4 frame — in
particular on raw JSON, which never starts with the frame magic).

Modelled: `lz4js.compress`/`lz4js.decompress`.  The model is a
run-length coder behind the genuine lz4 frame magic `04 22 4D 18`;
it has exactly the properties the code relies on: `decompress` inverts
`compress`, and `decompress` fails on data that does not carry the
magic. -/

/-- Maximal runs of equal bytes, as (length, byte) pairs. -/
def chunkRuns : Bytes → List (Nat × Nat)
  | [] => []
  | a :: rest =>
    match chunkRuns rest with
    | [] => [(1, a)]
    | (n, b) :: t => if a = b then (n + 1, b) :: t else (1, a) :: (n, b) :: t

/-- Run-length encoding of a byte string. -/
def rleEncode (l : Bytes) : Bytes := (chunkRuns l).flatMap fun p => [p.1, p.2]

/-- Run-length decoding; fails on odd-length input. -/
def rleDecode : Bytes → Option Bytes
  | [] => some []
  | n :: b :: r => (rleDecode r).map (List.replicate n b ++ ·)
  | [_] => none

/-- The lz4 frame magic number, as bytes (little-endian 0x184D2204). -/
def lz4Magic : Bytes := [4, 34, 77, 24]

/-- Model of `lz4js.compress`. -/
def lz4CompressM (d : Bytes) : Bytes := lz4Magic ++ rleEncode d

/-- Model of `lz4js.decompress`; `none` models the thrown error. -/
def lz4DecompressM (d : Bytes) : Option Bytes :=
  if d.take 4 = lz4Magic then rleDecode (d.drop 4) else none

/-- `MessageProtocol.compress`: only payloads of 64 bytes or more are
compressed, and only when compression actually shrinks them. -/
def compressB (data : Bytes) : Bytes :=
  if data.length < 64 then data
  else
    let c := lz4CompressM data
    if c.length < data.length then c else data

/-- `MessageProtocol.decompress`: falls back to the raw data when
decompression fails. -/
def decompressB (data : Bytes) : Bytes :=
  match lz4DecompressM data with
  | some r => r
  | none => data

/-! ## Packet framing (`MessageProtocol`) -/

/-- Protocol constants from message-protocol.ts. -/
def MAX_PACKET_SIZE : Nat := 512

/-- Extended header size from message-protocol.ts. -/
def HEADER_SIZE : Nat := 32

/-- `MessageProtocol.encodeId`: UTF-8 bytes truncated to `len` and
zero-padded. -/
def encodeId (s : Bytes) (len : Nat) : Bytes :=
  s.take len ++ List.replicate (len - (s.take len).length) 0

/-- `MessageProtocol.decodeId`: drops every zero byte, then decodes. -/
def decodeId (b : Bytes) : Bytes := b.filter (· ≠ 0)

/-- `MessageProtocol.encodePayload` on a message. -/
def encodePayloadB (m : MessageG) : Bytes :=
  printPayload ⟨m.id, m.timestamp, m.channel, m.text, m.encrypted, m.signature⟩

/-- `MessageProtocol.createPacket`.  `now` is the `Date.now()` read for
the relative timestamp.  Byte semantics: `setUint8` truncates mod 256,
`setUint16` is big-endian, and `message.ttl || 7` makes a zero (or
absent) TTL encode as 7. -/
def createPacket (m : MessageG) (payload : Bytes) (isFragment : Bool)
    (fragmentIndex totalFragments : Nat) (now : Nat) : Bytes :=
  [1, if isFragment then 7 else 1] ++
    encodeId m.id 16 ++
    encodeId m.sender 8 ++
    [fragmentIndex % 256, totalFragments % 256,
      (if m.ttl = 0 then 7 else m.ttl) % 256,
      if m.encrypted.isSome then 1 else 0,
      (now % 65536) / 256, (now % 65536) % 256] ++
    payload

/-- `MessageProtocol.fragmentMessage`. -/
def fragmentMessage (m : MessageG) (payload : Bytes) (now : Nat) : List Bytes :=
  let maxPayloadSize := MAX_PACKET_SIZE - HEADER_SIZE
  let totalFragments := (payload.length + maxPayloadSize - 1) / maxPayloadSize
  (List.range totalFragments).map fun i =>
    createPacket m ((payload.drop (i * maxPayloadSize)).take maxPayloadSize)
      true i totalFragments now

/-- `MessageProtocol.encode`. -/
def encodeMsg (m : MessageG) (now : Nat) : List Bytes :=
  let payload := encodePayloadB m
  let compressed := compressB payload
  if HEADER_SIZE + compressed.length ≤ MAX_PACKET_SIZE then
    [createPacket m compressed false 0 1 now]
  else fragmentMessage m compressed now

/-- `MessageProtocol.expandTimestamp`: `now + (rel - now % 65536)`,
which is non-negative whenever `now ≥ now % 65536`, i.e. always. -/
def expandTimestamp (rel now : Nat) : Nat := now - now % 65536 + rel

/-- `MessageProtocol.decode`.  `.error` models the thrown errors,
`.ok none` the fragment marker (`decodeFragment` returns `null`), and
`.ok (some m)` a decoded message.  `now` is the `Date.now()` read used
by `expandTimestamp`. -/
def decodeMsg (data : Bytes) (now : Nat) : Except String (Option MessageG) :=
  if data.getD 0 0 ≠ 1 then .error "Unsupported protocol version"
  else if data.getD 1 0 = 7 then .ok none
  else
    match parsePayload (decompressB (data.drop HEADER_SIZE)) with
    | none => .error "JSON parse error"
    | some f =>
      .ok (some
        { id := decodeId ((data.drop 2).take 16)
          sender := decodeId ((data.drop 18).take 8)
          ttl := data.getD 28 0
          encrypted := if data.getD 29 0 = 1 then f.encrypted else none
          timestamp := expandTimestamp (data.getD 30 0 * 256 + data.getD 31 0) now
          text := f.text
          channel := f.channel
          signature := f.signature })

/-! ## Relay engine (`BluetoothService.relayMessage`)

State: the bounded time-expiring dedup set `processedMessages` and the
`connections` table (device ids in `Map` iteration order).  The
5-minute `setTimeout` cleanup is modelled by the absence of a timer
step: all theorems below describe call sequences inside one expiry
window, during which the dedup set is only mutated by the calls
themselves.  Individual sends are modelled as succeeding (a per-peer
send failure is caught and only logged by the source). -/

/-- The relay-relevant state of a `BluetoothService` instance. -/
structure BTState where
  processed : List Bytes
  connections : List Bytes
deriving DecidableEq, Repr

/-- `BluetoothService.relayMessage`.  Returns the list of transmitted
`(deviceId, packet)` pairs in transmission order, and the new state. -/
def relayMsg (s : BTState) (m : MessageG) (excludeDeviceId : Option Bytes)
    (now : Nat) : List (Bytes × Bytes) × BTState :=
  if m.id ∈ s.processed then ([], s)
  else if m.ttl = 0 then ([], s)
  else
    let s' : BTState := ⟨s.processed ++ [m.id], s.connections⟩
    let relayM : MessageG := { m with ttl := m.ttl - 1 }
    let packets := encodeMsg relayM now
    ((s.connections.filter (fun d => ¬ excludeDeviceId = some d)).flatMap
        fun d => packets.map fun p => (d, p),
      s')

/-! ## Crypto envelope (`CryptoService`)

Modelled libraries:

* `scrypt-js`: `scryptM password salt N r p dkLen` is an executable
  injective function of all its arguments, standing for the scrypt KDF
  (collisions between distinct inputs are cryptographically negligible
  and the code relies on their absence).
* `tweetnacl` `secretbox`/`secretbox.open`: an executable authenticated
  encryption model — `open` inverts `secretbox` under the same key and
  nonce and fails (`null`, thrown as `DecryptError` by the caller) on
  any other key, which is the documented contract.
* base64 transport encoding: a bijection on byte strings, modelled as
  the identity. -/

/-- Modelled from `scrypt-js`: the scrypt KDF as an injective function
of (password, salt, N, r, p, dkLen). -/
def scryptM (password salt : Bytes) (n r p dkLen : Nat) : Bytes :=
  password.length :: (password ++ (salt.length :: (salt ++ [n, r, p, dkLen])))

/-- Modelled from `tweetnacl`: `nacl.secretbox`. -/
def secretboxM (msg nonce key : Bytes) : Bytes :=
  key.length :: (key ++ (nonce.length :: (nonce ++ msg)))

/-- Modelled from `tweetnacl`: `nacl.secretbox.open`; `none` is the
`null` returned on an authentication failure. -/
def secretboxOpenM (c nonce key : Bytes) : Option Bytes :=
  if c.take (key.length + 1) = key.length :: key then
    let rest := c.drop (key.length + 1)
    if rest.take (nonce.length + 1) = nonce.length :: nonce then
      some (rest.drop (nonce.length + 1))
    else none
  else none

/-- JS `Map` set: replace in place, or append a fresh key. -/
def mapSet {κ α : Type} [DecidableEq κ] (l : List (κ × α)) (k : κ) (v : α) :
    List (κ × α) :=
  if l.any (·.1 = k) then l.map (fun e => if e.1 = k then (k, v) else e)
  else l ++ [(k, v)]

/-- JS `Map` get. -/
def mapGet {κ α : Type} [DecidableEq κ] (l : List (κ × α)) (k : κ) : Option α :=
  (l.find? (·.1 = k)).map (·.2)

/-- The `channelKeys` cache of a `CryptoService` instance. -/
abbrev CryptoCache := List (Bytes × Bytes)

/-- The cache key `` `${channelName}:${password}` `` (58 is `:`). -/
def cacheKeyOf (channelName password : Bytes) : Bytes :=
  channelName ++ [58] ++ password

/-- The scrypt salt `` `bluchat:${channelName}` ``. -/
def saltFor (channelName : Bytes) : Bytes := lit "bluchat:" ++ channelName

/-- `CryptoService.deriveChannelKey`: per-(channel,password) cache in
front of scrypt with N=16384, r=8, p=1, dkLen=32. -/
def deriveChannelKey (st : CryptoCache) (channelName password : Bytes) :
    Bytes × CryptoCache :=
  let ck := cacheKeyOf channelName password
  match mapGet st ck with
  | some key => (key, st)
  | none =>
    let key := scryptM password (saltFor channelName) 16384 8 1 32
    (key, mapSet st ck key)

/-- `CryptoService.encryptForChannel`; the random nonce is a parameter. -/
def encryptForChannel (st : CryptoCache) (message channelName password : Bytes)
    (nonce : Bytes) : EncryptedDataG × CryptoCache :=
  let (key, st') := deriveChannelKey st channelName password
  (⟨nonce, secretboxM message nonce key, none⟩, st')

/-- `CryptoService.decryptFromChannel`; `.error` models the thrown
"Failed to decrypt channel message". -/
def decryptFromChannel (st : CryptoCache) (e : EncryptedDataG)
    (channelName password : Bytes) : Except String Bytes × CryptoCache :=
  let (key, st') := deriveChannelKey st channelName password
  match secretboxOpenM e.ciphertext e.nonce key with
  | some d => (.ok d, st')
  | none => (.error "Failed to decrypt channel message", st')

/-! ## Channel state machine (`ChannelService`) -/

/-- The channel lifecycle states. -/
inductive Lifecycle
  | discovering | joining | authenticating | authenticated | failed
deriving DecidableEq, Repr

/-- Display name of a lifecycle state (for the error string). -/
def lifecycleName : Lifecycle → String
  | .discovering => "discovering"
  | .joining => "joining"
  | .authenticating => "authenticating"
  | .authenticated => "authenticated"
  | .failed => "failed"

/-- The `ChannelState` record of channel-service.ts. -/
structure ChannelStateG where
  name : Bytes
  state : Lifecycle
  password : Option Bytes
  owner : Option Bytes
  joinedAt : Option Nat
  lastActivity : Option Nat
deriving DecidableEq, Repr

/-- The `channels` map of a `ChannelService` instance. -/
abbrev Channels := List (Bytes × ChannelStateG)

/-- ASCII `toLowerCase` on one code unit (the channel names the service
validates are ASCII hashtags). -/
def toLowerB (c : Nat) : Nat := if 65 ≤ c ∧ c ≤ 90 then c + 32 else c

/-- `normalizeChannelName`: lower-case and ensure a leading `#`. -/
def normalizeChannelName (name : Bytes) : Bytes :=
  if name.take 1 = [35] then name.map toLowerB else 35 :: name.map toLowerB

/-- A `\w` word character (ASCII letter, digit or underscore). -/
def isWordChar (c : Nat) : Bool :=
  (48 ≤ c ∧ c ≤ 57) ∨ (65 ≤ c ∧ c ≤ 90) ∨ (97 ≤ c ∧ c ≤ 122) ∨ c = 95

/-- `validateChannelName`: the regex `/^#\w{1,30}$/`. -/
def validateChannelName (name : Bytes) : Bool :=
  match name with
  | 35 :: rest => 1 ≤ rest.length ∧ rest.length ≤ 30 ∧ rest.all isWordChar
  | _ => false

/-- `ChannelService.discoverChannel`, synchronous part: validates, then
stores the channel in the `discovering` state.  The discovery-complete
transition runs on a 2-second `setTimeout` and is therefore not part of
this call's effect. -/
def discoverChannel (chs : Channels) (channelName : Bytes) (now : Nat) :
    Except String Channels :=
  let n := normalizeChannelName channelName
  if ¬ validateChannelName n then
    .error "Invalid channel name format. Use #channelname"
  else
    .ok (mapSet chs n ⟨n, .discovering, none, none, none, some now⟩)

/-- `ChannelService.joinChannel`, synchronous part: discovery is started
first when the channel is unknown; a channel not in the `joining` state
raises the state-conflict error; otherwise the password is stored and
`proceedToAuthentication` moves the channel to `authenticating` (its
1.5-second `setTimeout` result is not part of this call's effect). -/
def joinChannel (chs : Channels) (channelName : Bytes)
    (password : Option Bytes) (now : Nat) : Except String Unit × Channels :=
  let n := normalizeChannelName channelName
  match mapGet chs n with
  | none =>
    match discoverChannel chs n now with
    | .error e => (.error e, chs)
    | .ok chs' =>
      match mapGet chs' n with
      | some cst =>
        if cst.state ≠ Lifecycle.joining then
          (.error ("Cannot join channel in state: " ++ lifecycleName cst.state), chs')
        else
          (.ok (), mapSet chs' n
            { cst with password := password, state := .authenticating,
                       lastActivity := some now })
      | none => (.error "Channel not found", chs')
  | some cst =>
    if cst.state ≠ Lifecycle.joining then
      (.error ("Cannot join channel in state: " ++ lifecycleName cst.state), chs)
    else
      (.ok (), mapSet chs n
        { cst with password := password, state := .authenticating,
                   lastActivity := some now })

/-! ## Scanning optimizer (`ScanningOptimizer`)

JS numbers are modelled as rationals (the arithmetic the strategies do
— sums, averages, multiplication by decimal constants, min/max — is
exact on the values involved).  The wall-clock hour read by the
time-based strategy is an explicit parameter. -/

/-- Power level of a scan mode. -/
inductive PowerLevel | low | medium | high
deriving DecidableEq, Repr

/-- A `ScanMode` record. -/
structure ScanModeQ where
  interval : ℚ
  duration : ℚ
  passive : Bool
  powerLevel : PowerLevel
deriving DecidableEq, Repr

/-- A `ScanStats` record. -/
structure ScanStatsQ where
  devicesFound : ℚ
  connectionsEstablished : ℚ
  averageRssi : ℚ
  batteryLevel : ℚ
  timestamp : ℚ
deriving DecidableEq, Repr

/-- A `ScanContext` record. -/
structure ScanContextQ where
  batteryLevel : ℚ
  isCharging : Bool
  activeConnections : Nat
  timeSinceLastConnection : ℚ
  isAppActive : Bool
deriving DecidableEq, Repr

/-- The four named `SCAN_MODES`. -/
def SCAN_MODES_aggressive : ScanModeQ := ⟨5000, 3000, false, .high⟩

/-- Balanced scan mode. -/
def SCAN_MODES_balanced : ScanModeQ := ⟨15000, 2000, false, .medium⟩

/-- Conservative scan mode. -/
def SCAN_MODES_conservative : ScanModeQ := ⟨30000, 1000, true, .low⟩

/-- Minimal scan mode. -/
def SCAN_MODES_minimal : ScanModeQ := ⟨60000, 500, true, .low⟩

/-- `getRecentStats`: `stats.slice(-count)` (`count` is always one of
the positive constants 5, 10, 20 in the source). -/
def getRecentStats (stats : List ScanStatsQ) (count : Nat) : List ScanStatsQ :=
  stats.drop (stats.length - count)

/-- `calculateAverage`. -/
def calculateAverage (numbers : List ℚ) : ℚ :=
  if numbers.length = 0 then 0 else numbers.foldl (· + ·) 0 / numbers.length

/-- An `OptimizationStrategy`; `shouldApplyF` additionally receives the
wall-clock hour (read via `new Date().getHours()` in the source). -/
structure StrategyG where
  name : String
  shouldApplyF : List ScanStatsQ → ScanContextQ → Nat → Bool
  applyF : ScanModeQ → ScanModeQ

/-- The strategy list built by `initializeStrategies`, in registration
order. -/
def strategyList : List StrategyG :=
  [ { name := "battery-conservation"
      shouldApplyF := fun _ context _ =>
        decide (context.batteryLevel < 20) && !context.isCharging
      applyF := fun _ => SCAN_MODES_minimal },
    { name := "low-activity"
      shouldApplyF := fun stats context _ =>
        let recentStats := getRecentStats stats 5
        let avgDevices := calculateAverage (recentStats.map (·.devicesFound))
        decide (avgDevices < 1) && decide (context.timeSinceLastConnection > 300000)
      applyF := fun current =>
        { current with interval := min (current.interval * 1.5) 120000,
                       duration := max (current.duration * 0.8) 500 } },
    { name := "high-activity"
      shouldApplyF := fun stats context _ =>
        let recentStats := getRecentStats stats 5
        let avgDevices := calculateAverage (recentStats.map (·.devicesFound))
        decide (avgDevices > 3) && context.isAppActive
      applyF := fun _ => SCAN_MODES_aggressive },
    { name := "adaptive-rssi"
      shouldApplyF := fun stats _ _ =>
        let recentStats := getRecentStats stats 10
        let avgRssi := calculateAverage (recentStats.map (·.averageRssi))
        decide (avgRssi < -80)
      applyF := fun current =>
        { current with duration := min (current.duration * 1.2) 5000,
                       powerLevel := .high } },
    { name := "time-based-optimization"
      shouldApplyF := fun _ context hour =>
        (decide (hour ≥ 22) || decide (hour ≤ 6)) && decide (context.batteryLevel < 50)
      applyF := fun _ => SCAN_MODES_conservative },
    { name := "connection-success-rate"
      shouldApplyF := fun stats _ _ =>
        let recentStats := getRecentStats stats 20
        if recentStats.length < 10 then false
        else
          let successRate : ℚ :=
            (recentStats.filter (fun s => decide (s.connectionsEstablished > 0))).length /
              (recentStats.length : ℚ)
          decide (successRate < 0.1)
      applyF := fun current =>
        { current with interval := min (current.interval * 2) 180000,
                       duration := max (current.duration * 0.5) 500 } },
    { name := "adaptive-power"
      shouldApplyF := fun stats context _ =>
        let recentStats := getRecentStats stats 5
        let avgRssi := calculateAverage (recentStats.map (·.averageRssi))
        decide (avgRssi < -70) && decide (context.batteryLevel > 70) && context.isCharging
      applyF := fun current =>
        { current with powerLevel := .high,
                       duration := min (current.duration * 1.5) 4000 } } ]

/-- `isDifferentMode`. -/
def isDifferentMode (mode1 mode2 : ScanModeQ) : Bool :=
  mode1.interval ≠ mode2.interval || mode1.duration ≠ mode2.duration ||
    mode1.passive ≠ mode2.passive || mode1.powerLevel ≠ mode2.powerLevel

/-- The strategy loop of `optimizeScanMode`: a strategy is applied (and
the loop broken) only when its predicate matches *and* the mode it
produces differs from the current one; the emitted event carries the
strategy name. -/
def optLoop (hist : List ScanStatsQ) (ctx : ScanContextQ) (hour : Nat) :
    List StrategyG → ScanModeQ → Option (String × ScanModeQ)
  | [], _ => none
  | st :: rest, cur =>
    if st.shouldApplyF hist ctx hour && isDifferentMode (st.applyF cur) cur then
      some (st.name, st.applyF cur)
    else optLoop hist ctx hour rest cur

/-- `ScanningOptimizer.optimizeScanMode`: result is the new mode and the
strategy applied, or `none` when the mode is unchanged. -/
def optimizeScanMode (hist : List ScanStatsQ) (ctx : ScanContextQ) (hour : Nat)
    (cur : ScanModeQ) : Option (String × ScanModeQ) :=
  optLoop hist ctx hour strategyList cur

/-! ## Mesh coordinator node table (`MeshCoordinator`) -/

/-- A `MeshNode` record, restricted to the fields the node-table
operations read (`capabilities` is opaque to them). -/
structure MeshNodeR where
  id : Bytes
  lastHeartbeat : Nat
  knownPeers : List Bytes
  routingVersion : Nat
deriving DecidableEq, Repr

/-- The `nodes` map of a `MeshCoordinator`. -/
abbrev NodeTable := List (Bytes × MeshNodeR)

/-- `MAX_NODES` from the coordinator CONFIG. -/
def MAX_NODES : Nat := 50

/-- `MeshCoordinator.registerNode`: at capacity, the node with the
oldest `lastHeartbeat` (first under the stable ascending sort) is
deleted before the insert. -/
def registerNode (t : NodeTable) (n : MeshNodeR) : NodeTable :=
  let t1 :=
    if t.length ≥ MAX_NODES then
      match (t.map (·.2)).mergeSort (fun a b => a.lastHeartbeat ≤ b.lastHeartbeat) with
      | [] => t
      | oldest :: _ => t.filter (fun e => ¬ e.1 = oldest.id)
    else t
  mapSet t1 n.id n

/-- `MeshCoordinator.handleSyncResponse`, node-merging part: every node
of the payload except the local one is written into the table
unconditionally. -/
def handleSyncResponse (selfId : Bytes) (t : NodeTable)
    (payloadNodes : List MeshNodeR) : NodeTable :=
  payloadNodes.foldl (fun acc n => if n.id = selfId then acc else mapSet acc n.id n) t

/-! ## Partition detection (mesh service worker)

`detectNetworkPartitions(nodes, routes)` finds the connected components
of the undirected node/route graph by an explicit-stack traversal.  The
JS array used as a stack (`push`/`pop` at the end) is modelled as a
list with its top at the head; pushes made while scanning the route
list therefore end up reversed in front of the remaining stack. -/

/-- A node as seen by the partition detector (only `id` is read). -/
structure PNode where
  id : Bytes
deriving DecidableEq, Repr

/-- A route entry (only `source`/`destination` are read). -/
structure PRoute where
  source : Bytes
  destination : Bytes
deriving DecidableEq, Repr

/-- `nodes.find((n) => n.id === i)`, carrying the membership proof used
for termination. -/
def findNodeA (nodes : List PNode) (i : Bytes) : Option {n : PNode // n ∈ nodes} :=
  nodes.attach.find? (fun n => n.val.id = i)

/-- The pushes made for one popped node: both directions of every route
are scanned in order; targets already visited are skipped. -/
def routePushes (nodes : List PNode) (routes : List PRoute) (visited : List Bytes)
    (cid : Bytes) : List {n : PNode // n ∈ nodes} :=
  routes.foldl
    (fun acc r =>
      let acc1 :=
        if r.source = cid then
          match findNodeA nodes r.destination with
          | some t => if t.val.id ∈ visited then acc else acc ++ [t]
          | none => acc
        else acc
      if r.destination = cid then
        match findNodeA nodes r.source with
        | some t => if t.val.id ∈ visited then acc1 else acc1 ++ [t]
        | none => acc1
      else acc1)
    []

/-- The `while (stack.length > 0)` traversal of one component. -/
def dfsLoop (nodes : List PNode) (routes : List PRoute) :
    List Bytes → List {n : PNode // n ∈ nodes} → List PNode →
      List Bytes × List PNode
  | visited, [], part => (visited, part)
  | visited, current :: rest, part =>
    if current.val.id ∈ visited then dfsLoop nodes routes visited rest part
    else
      dfsLoop nodes routes (current.val.id :: visited)
        ((routePushes nodes routes (current.val.id :: visited) current.val.id).reverse
          ++ rest)
        (part ++ [current.val])
termination_by visited stack _ =>
  ((nodes.filter (fun n => ¬ n.id ∈ visited)).length, stack.length)
decreasing_by
  · exact Prod.Lex.right _ (Nat.lt_succ_self _)
  · apply Prod.Lex.left
    have h1 : (nodes.filter (fun n => ¬ n.id ∈ current.val.id :: visited)).Sublist
        (nodes.filter (fun n => ¬ n.id ∈ visited)) := by
      apply List.monotone_filter_right
      intro a ha
      simp only [List.mem_cons, decide_eq_true_eq, not_or] at ha ⊢
      exact fun hc => ha.2 hc
    have h2 : current.val ∈ nodes.filter (fun n => ¬ n.id ∈ visited) :=
      List.mem_filter.2 ⟨current.property, by simpa using ‹current.val.id ∉ visited›⟩
    have h3 : current.val ∉ nodes.filter (fun n => ¬ n.id ∈ current.val.id :: visited) := by
      intro hc
      have := List.of_mem_filter hc
      simp at this
    exact lt_of_le_of_ne h1.length_le (fun he => h3 ((h1.eq_of_length he) ▸ h2))

/-- `detectNetworkPartitions`: one traversal per still-unvisited node;
non-empty components are collected in discovery order. -/
def detectNetworkPartitions (nodes : List PNode) (routes : List PRoute) :
    List (List PNode) :=
  (nodes.attach.foldl
    (fun (acc : List Bytes × List (List PNode)) node =>
      if node.val.id ∈ acc.1 then acc
      else
        let r := dfsLoop nodes routes acc.1 [node] []
        if r.2.length > 0 then (r.1, acc.2 ++ [r.2]) else (r.1, acc.2))
    ([], [])).2

/-! ## Concrete instances used by counterexamples and witnesses -/

/-- Projection: the TTL of a successfully decoded message. -/
def decodedTtl (e : Except String (Option MessageG)) : Option Nat :=
  match e with
  | .ok (some m) => some m.ttl
  | _ => none

/-- A small message with TTL 0 (within the single-packet limit). -/
def c1CexMsg : MessageG :=
  ⟨lit "m", none, none, 5, lit "#c", lit "s", 0, none⟩

/-- A small well-formed message with TTL 5. -/
def c1WitMsg : MessageG :=
  ⟨lit "m", some (lit "hello"), none, 3, lit "#c", lit "s", 5, none⟩

/-- A small message with TTL 1. -/
def c2CexMsg : MessageG := { c1WitMsg with ttl := 1 }

/-- A small message with TTL 0. -/
def cZeroMsg : MessageG := { c1WitMsg with ttl := 0 }

/-- A small message with TTL 3. -/
def c2WitMsg : MessageG := { c1WitMsg with ttl := 3 }

/-- A relay state with an empty dedup set and two connected peers. -/
def btState2 : BTState := ⟨[], [lit "p1", lit "p2"]⟩

/-- Wellformedness of the channel-key cache: every entry was written by
`deriveChannelKey`, i.e. its key is some `` `${n}:${p}` `` and its value
the scrypt key for that `(n, p)`. -/
def wfCache (st : CryptoCache) : Prop :=
  ∀ e ∈ st, ∃ n p, e.1 = cacheKeyOf n p ∧ e.2 = scryptM p (saltFor n) 16384 8 1 32

/-- Strengthened wellformedness: additionally, every cached channel name
is colon-free (so the cache key `` `${n}:${p}` `` determines `(n, p)`). -/
def wfCacheCF (st : CryptoCache) : Prop :=
  ∀ e ∈ st, ∃ n p, (58 : Nat) ∉ n ∧ e.1 = cacheKeyOf n p ∧
    e.2 = scryptM p (saltFor n) 16384 8 1 32

/-! ## Helper lemmas -/

theorem getD_take_of_lt (l : Bytes) (n i : Nat) (h : i < n) :
    (l.take n).getD i 0 = l.getD i 0 := by
  simp [List.getD_eq_getElem?_getD, List.getElem?_take, h]

theorem expectLit_append (pat r : Bytes) : expectLit pat (pat ++ r) = some r := by
  simp [expectLit, List.take_left, List.drop_left]

theorem expectLit_none_of_getD (pat l : Bytes) (i : Nat) (h1 : i < pat.length)
    (h2 : l.getD i 0 ≠ pat.getD i 0) : expectLit pat l = none := by
  unfold expectLit
  split
  · rename_i h
    exact absurd (by rw [← h, getD_take_of_lt l pat.length i h1]) h2
  · rfl

theorem hexVal_hexDig (d : Nat) (h : d < 16) : hexVal (hexDig d) = d := by
  unfold hexDig hexVal
  split_ifs <;> omega

theorem scanStr_quote (acc r : Bytes) : scanStr acc (34 :: r) = some (acc.reverse, r) := by
  rw [scanStr.eq_def]; simp

theorem scanStr_raw (acc r : Bytes) (c : Nat) (h1 : c ≠ 34) (h2 : c ≠ 92) :
    scanStr acc (c :: r) = scanStr (c :: acc) r := by
  rw [scanStr.eq_def]; simp [h1, h2]

theorem scanStr_esc (acc r : Bytes) (e : Nat) (he : e ≠ 117) :
    scanStr acc (92 :: e :: r) = scanStr (e :: acc) r := by
  rw [scanStr.eq_def]; simp [he]

theorem scanStr_hex (acc r2 : Bytes) (a b c2 d : Nat) :
    scanStr acc (92 :: 117 :: a :: b :: c2 :: d :: r2) =
      scanStr ((hexVal a * 4096 + hexVal b * 256 + hexVal c2 * 16 + hexVal d) :: acc) r2 := by
  rw [scanStr.eq_def]; simp

theorem scanStr_flatMap (s : Bytes) : ∀ (acc r : Bytes),
    scanStr acc (s.flatMap escapeChar ++ 34 :: r) = some (acc.reverse ++ s, r) := by
  induction s with
  | nil => intro acc r; simpa using scanStr_quote acc r
  | cons c cs ih =>
    intro acc r
    show scanStr acc ((escapeChar c ++ cs.flatMap escapeChar) ++ 34 :: r) = _
    by_cases h1 : c = 34 ∨ c = 92
    · have he : escapeChar c = [92, c] := by unfold escapeChar; simp [h1]
      have hc : c ≠ 117 := by rcases h1 with h | h <;> omega
      rw [he]
      show scanStr acc (92 :: c :: (cs.flatMap escapeChar ++ 34 :: r)) = _
      rw [scanStr_esc _ _ _ hc, ih]
      simp [List.reverse_cons, List.append_assoc]
    · by_cases h2 : c < 32
      · have he : escapeChar c = [92, 117, 48, 48, hexDig (c / 16), hexDig (c % 16)] := by
          unfold escapeChar; simp [h1, h2]
        have hd : c / 16 < 16 := by omega
        have hm : c % 16 < 16 := by omega
        rw [he]
        show scanStr acc
            (92 :: 117 :: 48 :: 48 :: hexDig (c / 16) :: hexDig (c % 16) ::
              (cs.flatMap escapeChar ++ 34 :: r)) = _
        rw [scanStr_hex]
        have hv : hexVal 48 * 4096 + hexVal 48 * 256 +
            hexVal (hexDig (c / 16)) * 16 + hexVal (hexDig (c % 16)) = c := by
          rw [hexVal_hexDig _ hd, hexVal_hexDig _ hm]
          unfold hexVal
          norm_num
          omega
        rw [hv, ih]
        simp [List.reverse_cons, List.append_assoc]
      · have hc34 : c ≠ 34 := by tauto
        have hc92 : c ≠ 92 := by tauto
        have he : escapeChar c = [c] := by unfold escapeChar; simp [h1, h2]
        rw [he]
        show scanStr acc (c :: (cs.flatMap escapeChar ++ 34 :: r)) = _
        rw [scanStr_raw _ _ _ hc34 hc92, ih]
        simp [List.reverse_cons, List.append_assoc]

theorem parseStr_printStr (s r : Bytes) : parseStr (printStr s ++ r) = some (s, r) := by
  have : printStr s ++ r = 34 :: (s.flatMap escapeChar ++ 34 :: r) := by
    simp [printStr]
  rw [this]
  show scanStr [] _ = _
  simpa using scanStr_flatMap s [] r

theorem natDigitsAux_irrel (n : Nat) : ∀ f1 f2 : Nat, n < f1 → n < f2 →
    natDigitsAux f1 n = natDigitsAux f2 n := by
  induction n using Nat.strong_induction_on with
  | _ n ih =>
    intro f1 f2 h1 h2
    match f1, f2 with
    | fa + 1, fb + 1 =>
      show (if n < 10 then [48 + n] else natDigitsAux fa (n / 10) ++ [48 + n % 10]) =
        (if n < 10 then [48 + n] else natDigitsAux fb (n / 10) ++ [48 + n % 10])
      split
      · rfl
      · have hd : n / 10 < n := Nat.div_lt_self (by omega) (by norm_num)
        rw [ih (n / 10) hd fa fb (by omega) (by omega)]

theorem natDigits_eq (n : Nat) : natDigits n =
    if n < 10 then [48 + n] else natDigits (n / 10) ++ [48 + n % 10] := by
  show (if n < 10 then [48 + n] else natDigitsAux n (n / 10) ++ [48 + n % 10]) = _
  split
  · rfl
  · have hd : n / 10 < n := Nat.div_lt_self (by omega) (by norm_num)
    rw [natDigitsAux_irrel (n / 10) n (n / 10 + 1) hd (by omega)]
    rfl

theorem natDigits_digit (n : Nat) : ∀ c ∈ natDigits n, isDigitB c = true := by
  induction n using Nat.strong_induction_on with
  | _ n ih =>
    rw [natDigits_eq]
    split
    · intro c hc
      simp at hc
      simp [isDigitB, hc]
      omega
    · intro c hc
      rcases List.mem_append.1 hc with h | h
      · exact ih (n / 10) (Nat.div_lt_self (by omega) (by norm_num)) c h
      · simp at h
        have := Nat.mod_lt n (show 0 < 10 by norm_num)
        simp [isDigitB, h]
        omega

theorem natDigits_ne_nil (n : Nat) : natDigits n ≠ [] := by
  rw [natDigits_eq]
  split <;> simp

theorem takeWhile_append_notHead (p : Nat → Bool) (l1 : Bytes)
    (h1 : ∀ c ∈ l1, p c = true) (c : Nat) (hc : p c = false) (r : Bytes) :
    (l1 ++ c :: r).takeWhile p = l1 := by
  induction l1 with
  | nil => simp [List.takeWhile, hc]
  | cons a l ih =>
    have ha : p a = true := h1 a (by simp)
    simp only [List.cons_append, List.takeWhile_cons, ha, if_true]
    rw [ih (fun x hx => h1 x (by simp [hx]))]

theorem digitsVal_natDigits (n : Nat) :
    (natDigits n).foldl (fun a c => a * 10 + (c - 48)) 0 = n := by
  induction n using Nat.strong_induction_on with
  | _ n ih =>
    rw [natDigits_eq]
    split
    · simp
    · rw [List.foldl_append]
      rw [ih (n / 10) (Nat.div_lt_self (by omega) (by norm_num))]
      simp
      omega

theorem parseNum_natDigits (n : Nat) (c : Nat) (hc : isDigitB c = false) (r : Bytes) :
    parseNum (natDigits n ++ c :: r) = some (n, c :: r) := by
  unfold parseNum
  rw [takeWhile_append_notHead _ _ (natDigits_digit n) _ hc]
  simp [natDigits_ne_nil n, digitsVal_natDigits n, List.drop_left]

theorem expectLit_nil (l : Bytes) : expectLit [] l = some l := by
  simp [expectLit]

theorem expectLit_cons (a : Nat) (pat l : Bytes) :
    expectLit (a :: pat) (a :: l) = expectLit pat l := by
  simp [expectLit]

theorem expectLit_cons_ne (a b : Nat) (pat l : Bytes) (h : b ≠ a) :
    expectLit (a :: pat) (b :: l) = none := by
  simp [expectLit, h]

theorem expectLit_cons_nil (a : Nat) (pat : Bytes) :
    expectLit (a :: pat) [] = none := by
  simp [expectLit]

theorem lit_id : lit "\"id\":" = [34, 105, 100, 34, 58] := rfl

theorem lit_ts : lit ",\"timestamp\":" =
    [44, 34, 116, 105, 109, 101, 115, 116, 97, 109, 112, 34, 58] := rfl

theorem lit_ch : lit ",\"channel\":" =
    [44, 34, 99, 104, 97, 110, 110, 101, 108, 34, 58] := rfl

theorem lit_tx : lit ",\"text\":" = [44, 34, 116, 101, 120, 116, 34, 58] := rfl

theorem lit_en : lit ",\"encrypted\":" =
    [44, 34, 101, 110, 99, 114, 121, 112, 116, 101, 100, 34, 58] := rfl

theorem lit_sg : lit ",\"signature\":" =
    [44, 34, 115, 105, 103, 110, 97, 116, 117, 114, 101, 34, 58] := rfl

theorem lit_eph : lit "\"ephemeralPublicKey\":" =
    [34, 101, 112, 104, 101, 109, 101, 114, 97, 108, 80, 117, 98, 108, 105,
      99, 75, 101, 121, 34, 58] := rfl

theorem lit_n1 : lit "\"nonce\":" = [34, 110, 111, 110, 99, 101, 34, 58] := rfl

theorem lit_n2 : lit ",\"nonce\":" = [44, 34, 110, 111, 110, 99, 101, 34, 58] := rfl

theorem lit_ct : lit ",\"ciphertext\":" =
    [44, 34, 99, 105, 112, 104, 101, 114, 116, 101, 120, 116, 34, 58] := rfl

set_option maxHeartbeats 2000000 in
theorem parseEnc_printEnc (e : EncryptedDataG) (r : Bytes) :
    parseEnc (printEnc e ++ r) = some (e, r) := by
  obtain ⟨n, c, eph⟩ := e
  cases eph <;>
    simp [parseEnc, printEnc, lit_eph, lit_n1, lit_n2, lit_ct,
      expectLit_nil, expectLit_cons, expectLit_cons_ne,
      parseStr_printStr, List.append_assoc]

set_option maxHeartbeats 4000000 in
theorem parsePayload_printPayload (f : PayloadFields) :
    parsePayload (printPayload f) = some f := by
  obtain ⟨i, ts, ch, tx, en, sg⟩ := f
  have h44 : isDigitB 44 = false := by decide
  have h125 : isDigitB 125 = false := by decide
  cases tx <;> cases en <;> cases sg <;>
    simp [parsePayload, printPayload, lit_id, lit_ts, lit_ch, lit_tx, lit_en,
      lit_sg, expectLit_nil, expectLit_cons, expectLit_cons_ne,
      expectLit_cons_nil, parseStr_printStr, parseNum_natDigits _ _ h44,
      parseNum_natDigits _ _ h125, parseEnc_printEnc, List.append_assoc]

theorem chunkRuns_flatten (l : Bytes) :
    (chunkRuns l).foldr (fun p acc => List.replicate p.1 p.2 ++ acc) [] = l := by
  induction l with
  | nil => rfl
  | cons a rest ih =>
    rw [chunkRuns]
    cases h : chunkRuns rest with
    | nil =>
      rw [h] at ih
      simp at ih
      simp [← ih]
    | cons p t =>
      obtain ⟨n, b⟩ := p
      rw [h] at ih
      by_cases hab : a = b
      · subst hab
        simp only [if_true, List.foldr_cons] at ih ⊢
        rw [← ih]
        simp [List.replicate_succ]
      · simp only [hab, if_false, List.foldr_cons] at ih ⊢
        rw [← ih]
        simp

theorem rleDecode_pairs (ps : List (Nat × Nat)) :
    rleDecode (ps.flatMap fun p => [p.1, p.2]) =
      some (ps.foldr (fun p acc => List.replicate p.1 p.2 ++ acc) []) := by
  induction ps with
  | nil => rfl
  | cons p t ih =>
    rw [List.flatMap_cons]
    show rleDecode (p.1 :: p.2 :: (t.flatMap fun p => [p.1, p.2])) = _
    simp only [rleDecode, ih, Option.map_some']
    rfl

theorem rleDecode_rleEncode (l : Bytes) : rleDecode (rleEncode l) = some l := by
  rw [rleEncode, rleDecode_pairs, chunkRuns_flatten]

theorem lz4_roundtrip (d : Bytes) : lz4DecompressM (lz4CompressM d) = some d := by
  simp [lz4CompressM, lz4DecompressM, lz4Magic, rleDecode_rleEncode]

theorem lz4DecompressM_json (t : Bytes) : lz4DecompressM (123 :: t) = none := by
  simp [lz4DecompressM, lz4Magic, List.take]

theorem decompressB_compressB (t : Bytes) :
    decompressB (compressB (123 :: t)) = 123 :: t := by
  unfold compressB
  split
  · simp [decompressB, lz4DecompressM_json]
  · dsimp only
    split
    · simp [decompressB, lz4_roundtrip]
    · simp [decompressB, lz4DecompressM_json]

theorem encodePayloadB_shape (m : MessageG) :
    encodePayloadB m = 123 :: (encodePayloadB m).tail := by
  simp [encodePayloadB, printPayload]

theorem encodeId_length (s : Bytes) (len : Nat) : (encodeId s len).length = len := by
  simp [encodeId]

theorem decodeId_encodeId (s : Bytes) (len : Nat) (h1 : s.length ≤ len)
    (h2 : ∀ c ∈ s, c ≠ 0) : decodeId (encodeId s len) = s := by
  simp only [decodeId, encodeId, List.take_of_length_le h1, List.filter_append]
  rw [List.filter_eq_self.2 (fun a ha => by simpa using h2 a ha)]
  simp

/-- The packet produced by `createPacket`, exposed as header fields in
front of the payload. -/
theorem createPacket_eq (m : MessageG) (payload : Bytes) (isFragment : Bool)
    (fi tf now : Nat) :
    createPacket m payload isFragment fi tf now =
      1 :: (if isFragment then 7 else 1) ::
        (encodeId m.id 16 ++ (encodeId m.sender 8 ++
          ([fi % 256, tf % 256, (if m.ttl = 0 then 7 else m.ttl) % 256,
            if m.encrypted.isSome then 1 else 0,
            (now % 65536) / 256, (now % 65536) % 256] ++ payload))) := by
  simp [createPacket]

theorem createPacket_drop2 (m : MessageG) (payload : Bytes) (isFragment : Bool)
    (fi tf now : Nat) :
    (createPacket m payload isFragment fi tf now).drop 2 =
      encodeId m.id 16 ++ (encodeId m.sender 8 ++
        ([fi % 256, tf % 256, (if m.ttl = 0 then 7 else m.ttl) % 256,
          if m.encrypted.isSome then 1 else 0,
          (now % 65536) / 256, (now % 65536) % 256] ++ payload)) := by
  rw [createPacket_eq]
  rfl

theorem createPacket_drop26 (m : MessageG) (payload : Bytes) (isFragment : Bool)
    (fi tf now : Nat) :
    (createPacket m payload isFragment fi tf now).drop 26 =
      [fi % 256, tf % 256, (if m.ttl = 0 then 7 else m.ttl) % 256,
        if m.encrypted.isSome then 1 else 0,
        (now % 65536) / 256, (now % 65536) % 256] ++ payload := by
  have h1 : (createPacket m payload isFragment fi tf now).drop 26 =
      (((createPacket m payload isFragment fi tf now).drop 2).drop 16).drop 8 := by
    rw [List.drop_drop, List.drop_drop]
  rw [h1, createPacket_drop2, List.drop_left' (encodeId_length _ _),
    List.drop_left' (encodeId_length _ _)]

theorem createPacket_drop32 (m : MessageG) (payload : Bytes) (isFragment : Bool)
    (fi tf now : Nat) :
    (createPacket m payload isFragment fi tf now).drop HEADER_SIZE = payload := by
  have h1 : (createPacket m payload isFragment fi tf now).drop HEADER_SIZE =
      ((createPacket m payload isFragment fi tf now).drop 26).drop 6 := by
    rw [List.drop_drop]
    rfl
  rw [h1, createPacket_drop26]
  rfl

theorem getD_drop_add (l : Bytes) (n i d : Nat) :
    l.getD (n + i) d = (l.drop n).getD i d := by
  simp [List.getD_eq_getElem?_getD, List.getElem?_drop]

theorem createPacket_getD26 (m : MessageG) (payload : Bytes) (isFragment : Bool)
    (fi tf now : Nat) :
    (createPacket m payload isFragment fi tf now).getD 26 0 = fi % 256 := by
  rw [show (26 : Nat) = 26 + 0 from rfl, getD_drop_add, createPacket_drop26]
  rfl

theorem createPacket_getD27 (m : MessageG) (payload : Bytes) (isFragment : Bool)
    (fi tf now : Nat) :
    (createPacket m payload isFragment fi tf now).getD 27 0 = tf % 256 := by
  rw [show (27 : Nat) = 26 + 1 from rfl, getD_drop_add, createPacket_drop26]
  rfl

theorem createPacket_getD28 (m : MessageG) (payload : Bytes) (isFragment : Bool)
    (fi tf now : Nat) :
    (createPacket m payload isFragment fi tf now).getD 28 0 =
      (if m.ttl = 0 then 7 else m.ttl) % 256 := by
  rw [show (28 : Nat) = 26 + 2 from rfl, getD_drop_add, createPacket_drop26]
  rfl

theorem createPacket_getD29 (m : MessageG) (payload : Bytes) (isFragment : Bool)
    (fi tf now : Nat) :
    (createPacket m payload isFragment fi tf now).getD 29 0 =
      (if m.encrypted.isSome then 1 else 0) := by
  rw [show (29 : Nat) = 26 + 3 from rfl, getD_drop_add, createPacket_drop26]
  rfl

theorem createPacket_getD30 (m : MessageG) (payload : Bytes) (isFragment : Bool)
    (fi tf now : Nat) :
    (createPacket m payload isFragment fi tf now).getD 30 0 = (now % 65536) / 256 := by
  rw [show (30 : Nat) = 26 + 4 from rfl, getD_drop_add, createPacket_drop26]
  rfl

theorem createPacket_getD31 (m : MessageG) (payload : Bytes) (isFragment : Bool)
    (fi tf now : Nat) :
    (createPacket m payload isFragment fi tf now).getD 31 0 = (now % 65536) % 256 := by
  rw [show (31 : Nat) = 26 + 5 from rfl, getD_drop_add, createPacket_drop26]
  rfl

theorem createPacket_getD0 (m : MessageG) (payload : Bytes) (isFragment : Bool)
    (fi tf now : Nat) :
    (createPacket m payload isFragment fi tf now).getD 0 0 = 1 := by
  rw [createPacket_eq]
  rfl

theorem createPacket_getD1 (m : MessageG) (payload : Bytes) (isFragment : Bool)
    (fi tf now : Nat) :
    (createPacket m payload isFragment fi tf now).getD 1 0 =
      (if isFragment then 7 else 1) := by
  rw [createPacket_eq]
  cases isFragment <;> rfl

theorem createPacket_id (m : MessageG) (payload : Bytes) (isFragment : Bool)
    (fi tf now : Nat) :
    ((createPacket m payload isFragment fi tf now).drop 2).take 16 =
      encodeId m.id 16 := by
  rw [createPacket_drop2, List.take_left' (encodeId_length _ _)]

theorem createPacket_sender (m : MessageG) (payload : Bytes) (isFragment : Bool)
    (fi tf now : Nat) :
    ((createPacket m payload isFragment fi tf now).drop 18).take 8 =
      encodeId m.sender 8 := by
  have h1 : (createPacket m payload isFragment fi tf now).drop 18 =
      ((createPacket m payload isFragment fi tf now).drop 2).drop 16 := by
    rw [List.drop_drop]
  rw [h1, createPacket_drop2, List.drop_left' (encodeId_length _ _),
    List.take_left' (encodeId_length _ _)]

/-! ## C1: single-packet round trip -/

/-- C1 (amended): for a message whose id fits the 16-byte header field
and whose sender fits the 8-byte field (no NUL code units), whose TTL
is between 1 and 255, whose header-plus-compressed-payload size is
within the 512-byte packet limit, and whose `timestamp` field is the
clock reading at encode time, `decode` of the single packet produced by
`encode` returns a message with identical `id`, `sender`, `channel`,
`text`, `encrypted` payload, `signature` and `ttl`, and with a
timestamp that agrees with the original modulo the 16-bit relative
timestamp. -/
theorem c1_single_packet_roundtrip (m : MessageG) (now now' : Nat)
    (hid : m.id.length ≤ 16) (hid0 : ∀ c ∈ m.id, c ≠ 0)
    (hs : m.sender.length ≤ 8) (hs0 : ∀ c ∈ m.sender, c ≠ 0)
    (httl1 : 1 ≤ m.ttl) (httl2 : m.ttl ≤ 255)
    (hsize : HEADER_SIZE + (compressB (encodePayloadB m)).length ≤ MAX_PACKET_SIZE)
    (hts : m.timestamp = now) :
    ∃ p, encodeMsg m now = [p] ∧
      decodeMsg p now' = .ok (some
        { id := m.id, text := m.text, encrypted := m.encrypted,
          timestamp := expandTimestamp (now % 65536) now',
          channel := m.channel, sender := m.sender, ttl := m.ttl,
          signature := m.signature }) ∧
      expandTimestamp (now % 65536) now' % 65536 = m.timestamp % 65536 := by
  refine ⟨createPacket m (compressB (encodePayloadB m)) false 0 1 now, ?_, ?_, ?_⟩
  · unfold encodeMsg
    simp only [hsize, if_pos]
  · have hdec : decompressB ((createPacket m (compressB (encodePayloadB m))
        false 0 1 now).drop HEADER_SIZE) = encodePayloadB m := by
      rw [createPacket_drop32]
      conv_lhs => rw [encodePayloadB_shape m]
      rw [decompressB_compressB]
      exact (encodePayloadB_shape m).symm
    have hparse : parsePayload (encodePayloadB m) =
        some ⟨m.id, m.timestamp, m.channel, m.text, m.encrypted, m.signature⟩ :=
      parsePayload_printPayload ⟨m.id, m.timestamp, m.channel, m.text, m.encrypted, m.signature⟩
    have httlB : (if m.ttl = 0 then 7 else m.ttl) % 256 = m.ttl := by
      rw [if_neg (by omega)]
      omega
    have hts16 : (now % 65536) / 256 * 256 + (now % 65536) % 256 = now % 65536 := by
      omega
    unfold decodeMsg
    rw [createPacket_getD0, createPacket_getD1, hdec, hparse,
      createPacket_getD28, createPacket_getD29, createPacket_getD30,
      createPacket_getD31, createPacket_id, createPacket_sender,
      decodeId_encodeId m.id 16 hid hid0, decodeId_encodeId m.sender 8 hs hs0,
      httlB, hts16]
    cases hE : m.encrypted <;> simp
  · unfold expandTimestamp
    omega

/-- C1 counterexample: a message with TTL 0 is within the single-packet
limit, but decoding its encoding yields TTL 7 (the `message.ttl || 7`
default in `createPacket`), so the round trip does not preserve the
`ttl` field. -/
theorem c1_cex_ttl_not_preserved :
    (encodeMsg c1CexMsg 5).length = 1 ∧
    decodedTtl (decodeMsg ((encodeMsg c1CexMsg 5).headD []) 5) = some 7 ∧
    c1CexMsg.ttl = 0 := by decide

/-- C1 witness: the amended round trip at a concrete message. -/
theorem c1_witness :
    ∃ p, encodeMsg c1WitMsg 3 = [p] ∧
      decodeMsg p 10 = .ok (some
        { id := c1WitMsg.id, text := c1WitMsg.text, encrypted := c1WitMsg.encrypted,
          timestamp := expandTimestamp (3 % 65536) 10,
          channel := c1WitMsg.channel, sender := c1WitMsg.sender, ttl := c1WitMsg.ttl,
          signature := c1WitMsg.signature }) ∧
      expandTimestamp (3 % 65536) 10 % 65536 = c1WitMsg.timestamp % 65536 :=
  c1_single_packet_roundtrip c1WitMsg 3 10 (by decide) (by decide) (by decide)
    (by decide) (by decide) (by decide) (by decide) (by decide)

/-! ## C2: relay TTL decrement -/

theorem encodeMsg_getD28 (m : MessageG) (now : Nat) :
    ∀ p ∈ encodeMsg m now, p.getD 28 0 = (if m.ttl = 0 then 7 else m.ttl) % 256 := by
  intro p hp
  unfold encodeMsg at hp
  dsimp only at hp
  split at hp
  · simp at hp
    rw [hp, createPacket_getD28]
  · unfold fragmentMessage at hp
    simp only [List.mem_map, List.mem_range] at hp
    obtain ⟨i, _, hpe⟩ := hp
    rw [← hpe, createPacket_getD28]

/-- C2 (amended): a successfully relayed message with an input TTL
between 2 and 256 is re-broadcast in packets whose TTL byte is the
input TTL minus one, and a message with TTL 0 (or an absent TTL, which
the code reads as 0) is never relayed.  For input TTL exactly 1 the
decremented value 0 hits the `message.ttl || 7` default of
`createPacket`, so the claim's "output = input − 1" fails there (see
the counterexample). -/
theorem c2_relay_ttl (s : BTState) (m : MessageG) (ex : Option Bytes) (now : Nat) :
    (2 ≤ m.ttl → m.ttl ≤ 256 → m.id ∉ s.processed →
      ∀ td ∈ (relayMsg s m ex now).1, td.2.getD 28 0 = m.ttl - 1) ∧
    (m.ttl = 0 → (relayMsg s m ex now).1 = []) := by
  constructor
  · intro h2 h256 hfresh td htd
    unfold relayMsg at htd
    rw [if_neg hfresh, if_neg (by omega)] at htd
    simp only [List.mem_flatMap, List.mem_map, List.mem_filter] at htd
    obtain ⟨d, _, p, hp, hpe⟩ := htd
    have := encodeMsg_getD28 { m with ttl := m.ttl - 1 } now p hp
    rw [← hpe]
    simp only at this ⊢
    rw [this, if_neg (by omega), Nat.mod_eq_of_lt (by omega)]
  · intro h0
    unfold relayMsg
    by_cases hm : m.id ∈ s.processed
    · rw [if_pos hm]
    · rw [if_neg hm, if_pos h0]

/-- C2 counterexample: relaying a message with TTL 1 to one connected
peer transmits a packet whose TTL byte is 7, not 0 = 1 − 1. -/
theorem c2_cex_ttl_one :
    ((relayMsg btState2 c2CexMsg none 0).1.map (fun td => td.2.getD 28 0)) = [7, 7] ∧
    c2CexMsg.ttl = 1 ∧ (relayMsg btState2 c2CexMsg none 0).1 ≠ [] := by decide

/-- C2 witness: the amended statement at a concrete relay call. -/
theorem c2_witness :
    (∀ td ∈ (relayMsg btState2 c2WitMsg none 0).1,
      td.2.getD 28 0 = c2WitMsg.ttl - 1) ∧
    (relayMsg btState2 cZeroMsg none 0).1 = [] :=
  ⟨(c2_relay_ttl btState2 c2WitMsg none 0).1 (by decide) (by decide) (by decide),
    (c2_relay_ttl btState2 cZeroMsg none 0).2 (by decide)⟩

/-! ## C4: relay idempotence inside the dedup window -/

/-- C4: a first relay of a fresh message with positive TTL transmits
the encoded packets to every connected peer except the excluded one and
records the message id in the dedup set; a second relay of the same
message id (within the expiry window, during which no timer removes
it) transmits nothing and leaves the state unchanged. -/
theorem c4_relay_idempotent (s : BTState) (m : MessageG) (ex : Option Bytes)
    (now now2 : Nat) (hfresh : m.id ∉ s.processed) (httl : m.ttl ≠ 0) :
    (relayMsg s m ex now).1 =
      (s.connections.filter (fun d => ¬ ex = some d)).flatMap
        (fun d => (encodeMsg { m with ttl := m.ttl - 1 } now).map fun p => (d, p)) ∧
    m.id ∈ ((relayMsg s m ex now).2).processed ∧
    (relayMsg (relayMsg s m ex now).2 m ex now2).1 = [] ∧
    (relayMsg (relayMsg s m ex now).2 m ex now2).2 = (relayMsg s m ex now).2 := by
  have h1 : relayMsg s m ex now =
      ((s.connections.filter (fun d => ¬ ex = some d)).flatMap
          (fun d => (encodeMsg { m with ttl := m.ttl - 1 } now).map fun p => (d, p)),
        ⟨s.processed ++ [m.id], s.connections⟩) := by
    unfold relayMsg
    rw [if_neg hfresh, if_neg httl]
  rw [h1]
  have h2 : m.id ∈ s.processed ++ [m.id] := by simp
  have h3 : relayMsg ⟨s.processed ++ [m.id], s.connections⟩ m ex now2 =
      ([], ⟨s.processed ++ [m.id], s.connections⟩) := by
    unfold relayMsg
    rw [if_pos h2]
  exact ⟨rfl, h2, by rw [h3], by rw [h3]⟩

/-- C4 witness: the idempotence statement at a concrete double relay. -/
theorem c4_witness :
    (relayMsg btState2 c2WitMsg none 0).1 =
      (btState2.connections.filter (fun d => ¬ (none : Option Bytes) = some d)).flatMap
        (fun d => (encodeMsg { c2WitMsg with ttl := c2WitMsg.ttl - 1 } 0).map fun p => (d, p)) ∧
    c2WitMsg.id ∈ ((relayMsg btState2 c2WitMsg none 0).2).processed ∧
    (relayMsg (relayMsg btState2 c2WitMsg none 0).2 c2WitMsg none 9).1 = [] ∧
    (relayMsg (relayMsg btState2 c2WitMsg none 0).2 c2WitMsg none 9).2 =
      (relayMsg btState2 c2WitMsg none 0).2 :=
  c4_relay_idempotent btState2 c2WitMsg none 0 9 (by decide) (by decide)

/-! ## C5 and C10: channel cryptography -/

theorem scryptM_inj (p1 s1 p2 s2 : Bytes) (n r pp d : Nat)
    (h : scryptM p1 s1 n r pp d = scryptM p2 s2 n r pp d) : p1 = p2 ∧ s1 = s2 := by
  unfold scryptM at h
  obtain ⟨hl, ht⟩ := List.cons.inj h
  have hp : p1 = p2 := by
    have h1 := congrArg (List.take p1.length) ht
    rwa [List.take_left, hl, List.take_left] at h1
  have hrest := congrArg (List.drop p1.length) ht
  rw [List.drop_left, hl, List.drop_left] at hrest
  obtain ⟨hsl, ht2⟩ := List.cons.inj hrest
  have hs : s1 = s2 := by
    have h2 := congrArg (List.take s1.length) ht2
    rwa [List.take_left, hsl, List.take_left] at h2
  exact ⟨hp, hs⟩

theorem saltFor_inj (n1 n2 : Bytes) (h : saltFor n1 = saltFor n2) : n1 = n2 :=
  List.append_cancel_left h

theorem secretboxOpenM_secretboxM (msg nonce k k' : Bytes) :
    secretboxOpenM (secretboxM msg nonce k) nonce k' =
      if k' = k then some msg else none := by
  by_cases hk : k' = k
  · subst hk
    rw [if_pos rfl]
    unfold secretboxOpenM secretboxM
    rw [List.take_succ_cons, List.take_left, if_pos rfl, List.drop_succ_cons,
      List.drop_left]
    dsimp only
    rw [List.take_succ_cons, List.take_left, if_pos rfl, List.drop_succ_cons,
      List.drop_left]
  · rw [if_neg hk]
    unfold secretboxOpenM secretboxM
    have hcond : ¬ (List.take (k'.length + 1)
        (k.length :: (k ++ (nonce.length :: (nonce ++ msg)))) =
          k'.length :: k') := by
      intro hc
      rw [List.take_succ_cons] at hc
      obtain ⟨hl, ht⟩ := List.cons.inj hc
      rw [← hl, List.take_left] at ht
      exact hk ht.symm
    rw [if_neg hcond]

theorem mapGet_mapSet_self {α : Type} (l : List (Bytes × α)) (k : Bytes) (v : α) :
    mapGet (mapSet l k v) k = some v := by
  induction l with
  | nil => simp [mapSet, mapGet]
  | cons e t ih =>
    by_cases he : e.1 = k
    · simp [mapSet, mapGet, he]
    · have hany : (e :: t).any (·.1 = k) = t.any (·.1 = k) := by simp [he]
      unfold mapSet
      rw [hany]
      unfold mapSet at ih
      split
      · rename_i hT
        rw [hT] at ih
        simp only [if_true] at ih
        simp only [List.map_cons, if_neg he, mapGet, List.find?]
        have hd : (decide (e.1 = k)) = false := by simp [he]
        rw [hd]
        exact ih
      · rename_i hT
        rw [eq_false_of_ne_true hT] at ih
        simp only [if_false, Bool.false_eq_true] at ih
        simp only [List.cons_append, mapGet, List.find?]
        have hd : (decide (e.1 = k)) = false := by simp [he]
        rw [hd]
        exact ih

theorem mapGet_none_any {α : Type} (l : List (Bytes × α)) (k : Bytes)
    (h : mapGet l k = none) : l.any (·.1 = k) = false := by
  unfold mapGet at h
  rw [Option.map_eq_none'] at h
  rw [List.find?_eq_none] at h
  simp only [List.any_eq_false]
  intro e he
  simpa using h e he

theorem deriveChannelKey_eq (st : CryptoCache) (n p : Bytes) :
    deriveChannelKey st n p =
      match mapGet st (cacheKeyOf n p) with
      | some key => (key, st)
      | none => (scryptM p (saltFor n) 16384 8 1 32,
          mapSet st (cacheKeyOf n p) (scryptM p (saltFor n) 16384 8 1 32)) := rfl

theorem mapGet_some_entry {α : Type} (l : List (Bytes × α)) (k : Bytes) (v : α)
    (h : mapGet l k = some v) : ∃ e ∈ l, e.1 = k ∧ e.2 = v := by
  unfold mapGet at h
  cases hf : l.find? (·.1 = k) with
  | none => rw [hf] at h; simp at h
  | some e =>
    rw [hf] at h
    refine ⟨e, List.mem_of_find?_eq_some hf, ?_, ?_⟩
    · simpa using List.find?_some hf
    · simpa using h

theorem derive_wf (st : CryptoCache) (n p : Bytes) (h : wfCache st) :
    (∃ n2 p2, cacheKeyOf n2 p2 = cacheKeyOf n p ∧
      (deriveChannelKey st n p).1 = scryptM p2 (saltFor n2) 16384 8 1 32) ∧
    wfCache (deriveChannelKey st n p).2 := by
  rw [deriveChannelKey_eq]
  cases hm : mapGet st (cacheKeyOf n p) with
  | some key =>
    obtain ⟨e, hmem, hkey, hval⟩ := mapGet_some_entry st (cacheKeyOf n p) key hm
    obtain ⟨n2, p2, he1, he2⟩ := h e hmem
    exact ⟨⟨n2, p2, by rw [← he1, hkey], by rw [← hval, he2]⟩, h⟩
  | none =>
    refine ⟨⟨n, p, rfl, rfl⟩, ?_⟩
    have hany := mapGet_none_any st (cacheKeyOf n p) hm
    dsimp only
    unfold mapSet
    rw [hany]
    simp only [if_false, Bool.false_eq_true]
    intro e he
    rcases List.mem_append.1 he with h1 | h1
    · exact h e h1
    · simp at h1
      exact ⟨n, p, by simp [h1], by simp [h1]⟩

theorem derive_stable (st : CryptoCache) (n p : Bytes) :
    deriveChannelKey ((deriveChannelKey st n p).2) n p =
      ((deriveChannelKey st n p).1, (deriveChannelKey st n p).2) := by
  rw [deriveChannelKey_eq st n p]
  cases hm : mapGet st (cacheKeyOf n p) with
  | some key =>
    dsimp only
    rw [deriveChannelKey_eq, hm]
  | none =>
    dsimp only
    rw [deriveChannelKey_eq, mapGet_mapSet_self]

theorem cacheKeyOf_inj_cf (n1 : Bytes) : ∀ (n2 p1 p2 : Bytes), (58 : Nat) ∉ n1 →
    (58 : Nat) ∉ n2 → cacheKeyOf n1 p1 = cacheKeyOf n2 p2 → n1 = n2 ∧ p1 = p2 := by
  induction n1 with
  | nil =>
    intro n2 p1 p2 _ h2 h
    cases n2 with
    | nil => simpa [cacheKeyOf] using h
    | cons c t =>
      unfold cacheKeyOf at h
      simp at h
      exact absurd (by simp [← h.1]) h2
  | cons c t ih =>
    intro n2 p1 p2 h1 h2 h
    cases n2 with
    | nil =>
      unfold cacheKeyOf at h
      simp at h
      exact absurd (by simp [h.1]) h1
    | cons c2 t2 =>
      unfold cacheKeyOf at h
      simp only [List.cons_append, List.cons.injEq] at h
      obtain ⟨hc, ht⟩ := h
      have hrec := ih t2 p1 p2 (by simp at h1; tauto) (by simp at h2; tauto) ht
      exact ⟨by rw [hc, hrec.1], hrec.2⟩

theorem derive_keys_ne (st st' : CryptoCache) (n p p' : Bytes)
    (h : wfCache st) (h' : wfCache st') (hne : p ≠ p') :
    (deriveChannelKey st n p).1 ≠ (deriveChannelKey st' n p').1 := by
  obtain ⟨⟨n2, p2, hck2, hk2⟩, _⟩ := derive_wf st n p h
  obtain ⟨⟨n3, p3, hck3, hk3⟩, _⟩ := derive_wf st' n p' h'
  intro hc
  rw [hk2, hk3] at hc
  obtain ⟨hp23, hs23⟩ := scryptM_inj _ _ _ _ _ _ _ _ hc
  have hn23 : n2 = n3 := saltFor_inj _ _ hs23
  have : cacheKeyOf n p = cacheKeyOf n p' := by
    rw [← hck2, hn23, hp23, hck3]
  unfold cacheKeyOf at this
  exact hne (by simpa using List.append_cancel_left this)

/-- C5: channel encryption round trip — decrypting with the password
used to encrypt recovers the plaintext, and decrypting with any other
password fails with the decrypt error (never returns a plaintext).  The
cache may hold any entries previously written by `deriveChannelKey`
(`wfCache`). -/
theorem c5_channel_crypto (st : CryptoCache) (text n p p' nonce : Bytes)
    (hwf : wfCache st) (hne : p' ≠ p) :
    (decryptFromChannel (encryptForChannel st text n p nonce).2
        (encryptForChannel st text n p nonce).1 n p).1 = .ok text ∧
    (decryptFromChannel (encryptForChannel st text n p nonce).2
        (encryptForChannel st text n p nonce).1 n p').1 =
      .error "Failed to decrypt channel message" := by
  have hwf1 : wfCache (deriveChannelKey st n p).2 := (derive_wf st n p hwf).2
  constructor
  · unfold decryptFromChannel encryptForChannel
    rw [derive_stable st n p]
    dsimp only
    rw [secretboxOpenM_secretboxM, if_pos rfl]
  · unfold decryptFromChannel encryptForChannel
    dsimp only
    have hkne : (deriveChannelKey (deriveChannelKey st n p).2 n p').1 ≠
        (deriveChannelKey st n p).1 := by
      have := derive_keys_ne (deriveChannelKey st n p).2 st n p' p hwf1 hwf
        (fun hc => hne hc)
      exact this
    rw [secretboxOpenM_secretboxM, if_neg hkne]

/-- C5 witness: round trip and wrong-password failure at concrete
inputs, starting from the empty cache. -/
theorem c5_witness :
    (decryptFromChannel (encryptForChannel [] (lit "hi") (lit "#c") (lit "pw") (lit "N")).2
        (encryptForChannel [] (lit "hi") (lit "#c") (lit "pw") (lit "N")).1
        (lit "#c") (lit "pw")).1 = .ok (lit "hi") ∧
    (decryptFromChannel (encryptForChannel [] (lit "hi") (lit "#c") (lit "pw") (lit "N")).2
        (encryptForChannel [] (lit "hi") (lit "#c") (lit "pw") (lit "N")).1
        (lit "#c") (lit "x")).1 = .error "Failed to decrypt channel message" :=
  c5_channel_crypto [] (lit "hi") (lit "#c") (lit "pw") (lit "x") (lit "N")
    (fun e he => absurd he (List.not_mem_nil e)) (by decide)

/-- C10 counterexample: the cache key `` `${name}:${password}` `` does
not separate the two arguments.  After deriving a key for channel
`a:b` with password `c`, a derivation for channel `a` with password
`b:c` is served from the cache and returns the *wrong* key — a fresh
instance (empty cache) returns the correct scrypt key, so the cache
does alter the result and two instances can disagree. -/
theorem c10_cex_cache_collision :
    (deriveChannelKey ((deriveChannelKey [] (lit "a:b") (lit "c")).2)
        (lit "a") (lit "b:c")).1 ≠
      scryptM (lit "b:c") (saltFor (lit "a")) 16384 8 1 32 ∧
    (deriveChannelKey [] (lit "a") (lit "b:c")).1 =
      scryptM (lit "b:c") (saltFor (lit "a")) 16384 8 1 32 := by decide

/-- C10 (amended): for colon-free channel names (and a cache whose
entries were produced for colon-free names), `deriveChannelKey` is
deterministic in its arguments: it always returns the scrypt key of
(password, salt `bluchat:<channelName>`) with N=16384, r=8, p=1,
dkLen=32, whether cached or recomputed, and preserves cache
wellformedness — which is what lets independent devices derive the
same channel key. -/
theorem c10_derive_deterministic (st : CryptoCache) (n p : Bytes)
    (hn : (58 : Nat) ∉ n) (hwf : wfCacheCF st) :
    (deriveChannelKey st n p).1 = scryptM p (saltFor n) 16384 8 1 32 ∧
    wfCacheCF (deriveChannelKey st n p).2 := by
  rw [deriveChannelKey_eq]
  cases hm : mapGet st (cacheKeyOf n p) with
  | some key =>
    obtain ⟨e, hmem, hkey, hval⟩ := mapGet_some_entry st (cacheKeyOf n p) key hm
    obtain ⟨n2, p2, hcf2, he1, he2⟩ := hwf e hmem
    obtain ⟨hn2, hp2⟩ := cacheKeyOf_inj_cf n2 n p2 p hcf2 hn (by rw [← he1, hkey])
    refine ⟨?_, hwf⟩
    dsimp only
    rw [← hval, he2, hn2, hp2]
  | none =>
    refine ⟨rfl, ?_⟩
    have hany := mapGet_none_any st (cacheKeyOf n p) hm
    dsimp only
    unfold mapSet
    rw [hany]
    simp only [if_false, Bool.false_eq_true]
    intro e he
    rcases List.mem_append.1 he with h1 | h1
    · exact hwf e h1
    · simp at h1
      exact ⟨n, p, hn, by simp [h1], by simp [h1]⟩

/-- C10 witness: determinism of the key derivation at concrete inputs
with an empty cache. -/
theorem c10_witness :
    (deriveChannelKey [] (lit "#chan") (lit "pw")).1 =
      scryptM (lit "pw") (saltFor (lit "#chan")) 16384 8 1 32 ∧
    wfCacheCF (deriveChannelKey [] (lit "#chan") (lit "pw")).2 :=
  c10_derive_deterministic [] (lit "#chan") (lit "pw") (by decide)
    (fun e he => absurd he (List.not_mem_nil e))

end Bluchat
